import Mathlib

/-!
Formal model of the doc-mlops-pipeline repository.

Shallow embedding of the Python sources:

* `src/services/ocr/ocr_engines.py` — `EnsembleOCREngine.extract_text`
* `src/airflow/dags/document_processing_pipeline.py` — the task graph and
  `check_training_needed`
* `src/services/monitoring/performance_monitor.py` — `measure_and_log`
* `src/services/inference/inference_service.py` — `predict_from_text`,
  `predict_from_document`
* `src/services/ingestion/ingestion_service.py` — `validate_file`,
  `ingest_document`

Machine floats of the sources (confidence scores, accuracies) are modelled
as rationals; Python exceptions as `Option`/explicit outcome types; calls
with side effects (object storage, database) as explicit effect traces.
-/

namespace DocPipeline

/-! ## OCR ensemble (`src/services/ocr/ocr_engines.py`)

An `np.ndarray` image is opaque to the ensemble logic: it is only handed to
the member engines. We model it as an abstract token. A member engine's
`extract_text(image, language)` either returns a `(text, confidence)` pair
or raises; we model its behaviour as a function into `Option (String × ℚ)`
with `none` for a raised exception. -/

abbrev Image := Nat

/-- A member OCR engine: its class name (`engine.__class__.__name__`) and the
behaviour of its `extract_text(image, language)` method, `none` modelling a
raised exception. -/
structure PyEngine where
  name : String
  run : Image → String → Option (String × ℚ)

/-- One entry of the `results` list built by `EnsembleOCREngine.extract_text`:
the tuple `(text, confidence, engine.__class__.__name__)`. -/
structure OCRRun where
  text : String
  conf : ℚ
  engineName : String
deriving DecidableEq, Repr

/-- `max(results, key=lambda x: x[1])` on a non-empty list `best :: rest`:
Python's `max` keeps the current maximum on ties, so the earliest element
with maximal key wins. -/
def pyMaxByConf (best : OCRRun) : List OCRRun → OCRRun
  | [] => best
  | r :: rs => pyMaxByConf (if best.conf < r.conf then r else best) rs

/-- The `results` list accumulated by the `for engine in self.engines` loop:
engines that raise are skipped (`except ... logger.warning`), successful ones
contribute `(text, confidence, name)` in list order. -/
def runEngines (engines : List PyEngine) (image : Image) (language : String) :
    List OCRRun :=
  engines.filterMap fun e => (e.run image language).map fun tc =>
    ⟨tc.1, tc.2, e.name⟩

/-- The same loop, also recording the call trace: every engine's
`extract_text` is invoked exactly once, in list order, whether it raises
or not. -/
def runEnginesTr (engines : List PyEngine) (image : Image) (language : String) :
    List OCRRun × List String :=
  match engines with
  | [] => ([], [])
  | e :: rest =>
    let tr := runEnginesTr rest image language
    match e.run image language with
    | some tc => (⟨tc.1, tc.2, e.name⟩ :: tr.1, e.name :: tr.2)
    | none => (tr.1, e.name :: tr.2)

/-- `EnsembleOCREngine`: the list of member engines and the
`voting_strategy` string. -/
structure EnsembleOCREngine where
  engines : List PyEngine
  voting_strategy : String

/-- `EnsembleOCREngine.extract_text`: run every engine, return `("", 0.0)`
if all failed; under the `'confidence'` strategy return the max-by-confidence
result, under any other strategy return the first collected result. -/
def EnsembleOCREngine.extract_text (e : EnsembleOCREngine) (image : Image)
    (language : String) : String × ℚ :=
  match runEngines e.engines image language with
  | [] => ("", 0)
  | r :: rs =>
    if e.voting_strategy = "confidence" then
      let best := pyMaxByConf r rs
      (best.text, best.conf)
    else
      (r.text, r.conf)

/-! ## Airflow DAG (`src/airflow/dags/document_processing_pipeline.py`)

The eight tasks and the dependency edges declared with `>>` at the bottom of
the DAG file. All tasks are plain `PythonOperator`s with the default
`all_success` trigger rule: a task executes once every upstream task has
executed and succeeded; the return value of a callable (and any XCom it
pushes) does not gate downstream execution — only `BranchPythonOperator` or
`ShortCircuitOperator` would, and none is used. -/

inductive Task where
  | check_new_documents
  | process_ocr_batch
  | check_training_needed
  | train_model
  | deploy_model
  | run_predictions
  | collect_metrics
  | cleanup_old_data
deriving DecidableEq, Repr, Fintype

/-- The dependency edges declared in the DAG file:
`check_docs_task >> ocr_task >> check_training_task`,
`check_training_task >> train_task >> deploy_task >> predict_task`,
`check_training_task >> predict_task`,
`predict_task >> metrics_task >> cleanup_task`. -/
def dagEdges : List (Task × Task) :=
  [ (.check_new_documents, .process_ocr_batch),
    (.process_ocr_batch, .check_training_needed),
    (.check_training_needed, .train_model),
    (.train_model, .deploy_model),
    (.deploy_model, .run_predictions),
    (.check_training_needed, .run_predictions),
    (.run_predictions, .collect_metrics),
    (.collect_metrics, .cleanup_old_data) ]

/-- Airflow execution semantics for this DAG: with plain `PythonOperator`s
under the default `all_success` trigger rule, a task executes in a run
exactly when each of its upstream tasks executed and its callable succeeded
(did not raise). `succ t` tells whether task `t`'s callable succeeds when
invoked. -/
inductive Executes (succ : Task → Bool) : Task → Prop where
  | mk (t : Task)
      (hup : ∀ s, (s, t) ∈ dagEdges → Executes succ s)
      (hok : ∀ s, (s, t) ∈ dagEdges → succ s = true) :
      Executes succ t

/-- A row of the `ModelMetrics` table as read by `check_training_needed`:
the training timestamp (seconds since the epoch; `datetime` has sub-second
resolution, seconds suffice for the day arithmetic) and the recorded
accuracy. -/
structure ModelRecord where
  trained_at : Nat
  accuracy : ℚ

/-- `check_training_needed` (the decision it computes and returns):
`True` if no `ModelMetrics` row exists; otherwise
`(datetime.utcnow() - last_model.trained_at).days > 7 or
last_model.accuracy < 0.85`, where `timedelta.days` is the elapsed time
floored to whole days. `now` is `datetime.utcnow()` in epoch seconds and
`lastModel` the most recent `ModelMetrics` row. -/
def check_training_needed (now : Nat) (lastModel : Option ModelRecord) : Bool :=
  match lastModel with
  | none => true
  | some m =>
    decide ((now - m.trained_at) / 86400 > 7) || decide (m.accuracy < 85/100)

/-! ## Performance monitor (`src/services/monitoring/performance_monitor.py`)

`PerformanceMonitor.measure_and_log(service_name, endpoint)` wraps a
function. We model one call of the wrapper: the wrapped call's outcome is
either a returned Python value or a raised exception, and the wrapper emits
performance-metric records (`_save_metric` builds one `PerformanceMetric`
row per invocation). -/

/-- Python values, as far as the wrapper inspects them: it only asks
`isinstance(result, dict)` and the truthiness of `result.get('success', True)`. -/
inductive PyVal where
  | pyNone
  | bool (b : Bool)
  | int (n : Int)
  | str (s : String)
  | dict (entries : List (String × PyVal))

/-- Python truthiness for the values above. -/
def PyVal.truthy : PyVal → Bool
  | .pyNone => false
  | .bool b => b
  | .int n => decide (n ≠ 0)
  | .str s => decide (s ≠ "")
  | .dict [] => false
  | .dict (_ :: _) => true

/-- `d.get(key, default)` on a dict (keys are unique in a Python dict, so
first-match lookup is the dict lookup). -/
def dictGet (entries : List (String × PyVal)) (key : String) (dflt : PyVal) :
    PyVal :=
  match entries.lookup key with
  | some v => v
  | none => dflt

/-- Outcome of calling the wrapped function: a returned value or a raised
exception (carrying `str(e)`). -/
inductive CallOutcome where
  | ret (v : PyVal)
  | exn (msg : String)

/-- A `PerformanceMetric` row as built by `_save_metric` (the fields the
wrapper determines; `response_time` is wall-clock and not modelled). -/
structure MetricRecord where
  service_name : String
  endpoint : String
  status_code : Nat
deriving DecidableEq, Repr

/-- One call through the `measure_and_log(service_name, endpoint)` wrapper:
given the wrapped call's outcome, produce the wrapper's outcome and the list
of metric records it saves. `endpoint = none` models passing no endpoint, in
which case `func.__name__` is used. Status code: `500` when the call raised,
`400` when it returned a dict whose `'success'` entry (defaulting to `True`)
is falsy, `200` otherwise; the result is returned, the exception re-raised. -/
def measure_and_log_call (service_name : String) (endpoint : Option String)
    (funcName : String) (outcome : CallOutcome) :
    CallOutcome × List MetricRecord :=
  let endpoint_name := endpoint.getD funcName
  match outcome with
  | .ret r =>
    let status_code : Nat :=
      match r with
      | .dict es =>
        if (dictGet es "success" (.bool true)).truthy then 200 else 400
      | _ => 200
    (.ret r, [⟨service_name, endpoint_name, status_code⟩])
  | .exn e => (.exn e, [⟨service_name, endpoint_name, 500⟩])

/-! ## Inference service (`src/services/inference/inference_service.py`)

`predict_from_text` vectorises the text, runs the model, takes
`np.argmax(probs)` and maps the index through
`label_mapping['idx_to_label']`. The vectoriser-plus-model pipeline is
opaque numeric code; we model it as a function from the text to the
probability vector (`none` for a raised exception). `model` and
`vectorizer` are always set together (both in `__init__` and in
`deploy_model`), so a single `Option` models the `model is None or
vectorizer is None` guard. -/

/-- `np.argmax` on a list: the first index attaining the maximum. -/
def npArgmaxAux (bestIdx : Nat) (best : ℚ) (i : Nat) : List ℚ → Nat
  | [] => bestIdx
  | c :: cs =>
    if best < c then npArgmaxAux i c (i + 1) cs
    else npArgmaxAux bestIdx best (i + 1) cs

/-- `np.argmax(probs)` for a probability vector `p :: ps`. -/
def npArgmax : List ℚ → Nat
  | [] => 0
  | p :: ps => npArgmaxAux 0 p 1 ps

/-- The loaded artifacts: the `idx_to_label` mapping and the behaviour of
`vectorizer.transform` + `model.predict(..., return_probabilities=True)` on
a single text (`none` models an exception raised inside the `try`). -/
structure Classifier where
  idx_to_label : List String
  predictProbs : String → Option (List ℚ)

/-- The `InferenceService` state `predict_from_text` reads. -/
structure InferenceService where
  model : Option Classifier
  confidence_threshold : ℚ

/-- Result dict of `predict_from_text` / `predict_from_document`, reduced to
the fields the claims are about. -/
inductive PredictOutcome where
  | failure (error : String)
  | success (predicted_class : String) (confidence_score : ℚ)
      (is_confident : Bool)
deriving DecidableEq, Repr

/-- `InferenceService.predict_from_text`: `Model not loaded` when no
artifacts are loaded; otherwise run the pipeline, take the argmax class and
its probability, and compare against `confidence_threshold`. Any exception
inside the `try` (pipeline failure, empty probability vector, missing
label) yields `{'success': False, 'error': str(e)}`. -/
def InferenceService.predict_from_text (svc : InferenceService)
    (text : String) : PredictOutcome :=
  match svc.model with
  | none => .failure "Model not loaded"
  | some clf =>
    match clf.predictProbs text with
    | none => .failure "prediction error"
    | some probs =>
      match probs with
      | [] => .failure "prediction error"
      | p :: ps =>
        match clf.idx_to_label.get? (npArgmax (p :: ps)) with
        | none => .failure "prediction error"
        | some predicted_class =>
          .success predicted_class ((p :: ps).getD (npArgmax (p :: ps)) 0)
            (decide (svc.confidence_threshold ≤
              (p :: ps).getD (npArgmax (p :: ps)) 0))

/-- What `predict_from_document` observes of the OCR layer for a given
document id: `stored` is `get_ocr_results(document_id)` (the most recent
`OCRResult` row, ordered by `processed_at` descending, or `None`), and
`processResult` is what `process_document(document_id, language)` would
return were it invoked (its `extracted_text` on success, or failure). -/
inductive ProcessOutcome where
  | ok (extracted_text : String)
  | failed
deriving DecidableEq, Repr

structure OcrEnv where
  stored : Option String
  processResult : ProcessOutcome

/-- The text `predict_from_document` ends up classifying: the stored OCR
text when a stored result exists, otherwise the freshly extracted text,
`none` when OCR had to run and failed. -/
def sourceText (env : OcrEnv) : Option String :=
  match env.stored with
  | some t => some t
  | none =>
    match env.processResult with
    | .ok t => some t
    | .failed => none

/-- A `Prediction` row as written by `_save_prediction` (the fields the
claims are about). -/
structure SavedPrediction where
  predicted_class : String
  confidence_score : ℚ
deriving DecidableEq, Repr

/-- `InferenceService.predict_from_document` with `save_to_db=True`:
returns the prediction outcome, whether OCR was run
(`process_document` invoked), and the list of `Prediction` rows saved.
Uses the stored OCR text when one exists, else runs OCR; fails without
saving when OCR fails, when the extracted text is empty (falsy), or when
`predict_from_text` fails; on success saves one row. -/
def InferenceService.predict_from_document (svc : InferenceService)
    (env : OcrEnv) : PredictOutcome × Bool × List SavedPrediction :=
  let textAndRan : Option String × Bool :=
    match env.stored with
    | some t => (some t, false)
    | none =>
      match env.processResult with
      | .ok t => (some t, true)
      | .failed => (none, true)
  match textAndRan with
  | (none, ranOcr) => (.failure "OCR processing failed", ranOcr, [])
  | (some extracted_text, ranOcr) =>
    if extracted_text = "" then
      (.failure "No text extracted from document", ranOcr, [])
    else
      match svc.predict_from_text extracted_text with
      | .success c conf ic =>
        (.success c conf ic, ranOcr, [⟨c, conf⟩])
      | .failure e => (.failure e, ranOcr, [])

/-! ## Ingestion service (`src/services/ingestion/ingestion_service.py`) -/

/-- `pathlib.Path(filename).name`: the final path component — the
characters after the last `'/'`, with trailing slashes stripped first. -/
def pathFinalName (filename : String) : String :=
  String.mk
    ((((filename.toList.reverse).dropWhile (fun ch => ch = '/')).takeWhile
        (fun ch => ch ≠ '/')).reverse)

/-- `str.lower()` on the ASCII range (extensions are ASCII). -/
def pyLower (s : String) : String :=
  String.mk (s.toList.map fun ch =>
    if 'A' ≤ ch ∧ ch ≤ 'Z' then Char.ofNat (ch.toNat + 32) else ch)

/-- `pathlib.Path(filename).suffix`: the substring of the final component
from its last dot, provided that dot is neither the leading character nor
the last one; otherwise the empty string. -/
def pathLastExt (filename : String) : String :=
  let cs := (pathFinalName filename).toList
  match (cs.enum.filter (fun p => p.2 = '.')).getLast? with
  | some iv =>
    if 0 < iv.1 ∧ iv.1 < cs.length - 1 then String.mk (cs.drop iv.1) else ""
  | none => ""

def ALLOWED_EXTENSIONS : List String :=
  [".jpg", ".jpeg", ".png", ".tiff", ".tif", ".pdf", ".bmp"]

def MAX_FILE_SIZE : Nat := 50 * 1024 * 1024

/-- `IngestionService.validate_file(filename, file_size)`: lowercase the
`Path(filename).suffix`, reject extensions outside `ALLOWED_EXTENSIONS` and
sizes above `MAX_FILE_SIZE`, else `(True, None)`. -/
def validate_file (filename : String) (file_size : Nat) :
    Bool × Option String :=
  let file_ext := pyLower (pathLastExt filename)
  if file_ext ∉ ALLOWED_EXTENSIONS then
    (false, some "Недопустимое расширение файла")
  else if file_size > MAX_FILE_SIZE then
    (false, some "Файл слишком большой")
  else
    (true, none)

/-- Side effects of `ingest_document` on storage and database. -/
inductive IngestEffect where
  | upload (object_name : String)
  | dbCommit (document_id : Nat)
  | deleteObj (object_name : String)
deriving DecidableEq, Repr

/-- The environment an `ingest_document` call runs against: whether
`storage.upload_file` reports success, whether `_save_to_database` raises,
and the row id the database would assign. -/
structure IngestEnv where
  uploadSucceeds : Bool
  dbSaveRaises : Bool
  newId : Nat

/-- Result dict of `ingest_document`, reduced to success and the fields the
claims are about. -/
inductive IngestResult where
  | ok (document_id : Nat)
  | err (error : String)
deriving DecidableEq, Repr

/-- `IngestionService.ingest_document`: validate, upload to object storage
under `storage_path` (which abbreviates the generated
`raw/{timestamp}_{hash-octet}{ext}` name; the image preprocessing step only
rewrites the bytes and is not observable here), then save the metadata row;
if the database save raises, delete the uploaded object and fail. The
second component is the trace of storage/database effects. -/
def ingest_document (env : IngestEnv) (filename : String) (file_size : Nat)
    (storage_path : String) : IngestResult × List IngestEffect :=
  match validate_file filename file_size with
  | (false, error_msg) => (.err (error_msg.getD ""), [])
  | (true, _) =>
    if env.uploadSucceeds = false then
      (.err "Ошибка загрузки в хранилище", [.upload storage_path])
    else if env.dbSaveRaises then
      (.err "Ошибка сохранения в БД",
        [.upload storage_path, .deleteObj storage_path])
    else
      (.ok env.newId, [.upload storage_path, .dbCommit env.newId])

/-! ## Theorems -/

/-- The seven ordering edges enumerated by the spec claim about the task
graph (for comparison with `dagEdges`, which is read off the DAG file). -/
def claimedEdges : List (Task × Task) :=
  [ (.check_new_documents, .process_ocr_batch),
    (.process_ocr_batch, .check_training_needed),
    (.train_model, .deploy_model),
    (.deploy_model, .run_predictions),
    (.check_training_needed, .run_predictions),
    (.run_predictions, .collect_metrics),
    (.collect_metrics, .cleanup_old_data) ]

/-- C7 (counterexample): the DAG declares the ordering edge
`check_training_task >> train_task`, which is absent from the claim's edge
list, so the claimed edge set is not the DAG's edge set. -/
theorem dag_edges_claim_false :
    (Task.check_training_needed, Task.train_model) ∈ dagEdges ∧
      (Task.check_training_needed, Task.train_model) ∉ claimedEdges ∧
      ¬ (∀ p : Task × Task, p ∈ dagEdges ↔ p ∈ claimedEdges) := by
  refine ⟨by decide, by decide, fun h => ?_⟩
  have := (h (Task.check_training_needed, Task.train_model)).mp (by decide)
  exact absurd this (by decide)

/-- C7 (amended): the task graph consists exactly of the claimed seven
edges plus the edge from `check_training_needed` to `train_model`. -/
theorem dag_edges_spec :
    ∀ p : Task × Task,
      p ∈ dagEdges ↔
        (p ∈ claimedEdges ∨ p = (Task.check_training_needed, Task.train_model)) := by
  decide

/-- With every task callable succeeding, every task of the DAG executes:
plain `PythonOperator`s under the `all_success` trigger rule never skip. -/
theorem executes_of_all_success : ∀ t : Task, Executes (fun _ => true) t := by
  have h0 : Executes (fun _ => true) Task.check_new_documents :=
    ⟨_, fun s hs => by simp [dagEdges] at hs, fun _ _ => rfl⟩
  have h1 : Executes (fun _ => true) Task.process_ocr_batch :=
    ⟨_, fun s hs => by simp [dagEdges] at hs; subst hs; exact h0,
      fun _ _ => rfl⟩
  have h2 : Executes (fun _ => true) Task.check_training_needed :=
    ⟨_, fun s hs => by simp [dagEdges] at hs; subst hs; exact h1,
      fun _ _ => rfl⟩
  have h3 : Executes (fun _ => true) Task.train_model :=
    ⟨_, fun s hs => by simp [dagEdges] at hs; subst hs; exact h2,
      fun _ _ => rfl⟩
  have h4 : Executes (fun _ => true) Task.deploy_model :=
    ⟨_, fun s hs => by simp [dagEdges] at hs; subst hs; exact h3,
      fun _ _ => rfl⟩
  have h5 : Executes (fun _ => true) Task.run_predictions :=
    ⟨_, fun s hs => by
        simp [dagEdges] at hs
        rcases hs with hs | hs <;> subst hs
        · exact h4
        · exact h2,
      fun _ _ => rfl⟩
  have h6 : Executes (fun _ => true) Task.collect_metrics :=
    ⟨_, fun s hs => by simp [dagEdges] at hs; subst hs; exact h5,
      fun _ _ => rfl⟩
  have h7 : Executes (fun _ => true) Task.cleanup_old_data :=
    ⟨_, fun s hs => by simp [dagEdges] at hs; subst hs; exact h6,
      fun _ _ => rfl⟩
  intro t
  cases t
  · exact h0
  · exact h1
  · exact h2
  · exact h3
  · exact h4
  · exact h5
  · exact h6
  · exact h7

/-- C2 (code evaluated at the failing input): in a run whose latest model
is fresh (trained now) and accurate (0.9), `check_training_needed`
concludes that no retraining is needed, yet `train_model` and
`deploy_model` still execute, because every task is a plain
`PythonOperator` whose boolean result and XCom gate nothing. -/
theorem train_and_deploy_run_despite_no_retraining_need :
    check_training_needed 0 (some ⟨0, 9/10⟩) = false ∧
      Executes (fun _ => true) Task.train_model ∧
      Executes (fun _ => true) Task.deploy_model := by
  refine ⟨by norm_num [check_training_needed], executes_of_all_success _,
    executes_of_all_success _⟩

/-- C3 (counterexample): with the latest model trained 7 days and 1 hour
ago (strictly more than 7 days = 604800 seconds) and accuracy 0.9,
`check_training_needed` concludes that no retraining is needed, because
`timedelta.days` floors the elapsed time to 7 whole days. -/
theorem check_training_claim_false :
    7 * 86400 < (7 * 86400 + 3600 : Nat) - 0 ∧
      ¬ ((9 : ℚ)/10 < 85/100) ∧
      check_training_needed (7 * 86400 + 3600) (some ⟨0, 9/10⟩) = false := by
  refine ⟨by norm_num, by norm_num, by norm_num [check_training_needed]⟩

/-- C3 (amended): `check_training_needed` concludes that retraining is
needed iff no model row exists, or at least 8 whole days' worth of seconds
(the elapsed time floored to whole days exceeds 7) have passed since the
latest model's `trained_at`, or the latest model's accuracy is below 0.85. -/
theorem check_training_needed_spec (now : Nat) (lastModel : Option ModelRecord) :
    check_training_needed now lastModel = true ↔
      (lastModel = none ∨
        ∃ m, lastModel = some m ∧
          (8 * 86400 ≤ now - m.trained_at ∨ m.accuracy < 85/100)) := by
  cases lastModel with
  | none => simp [check_training_needed]
  | some m =>
    have hdiv : (7 < (now - m.trained_at) / 86400) ↔
        8 * 86400 ≤ now - m.trained_at := by
      rw [Nat.lt_iff_add_one_le, Nat.le_div_iff_mul_le (by norm_num)]
    simp [check_training_needed, hdiv]

/-- Every confidence in `best :: rest` is at most the confidence selected by
`max(results, key=lambda x: x[1])`. -/
theorem pyMaxByConf_le (best : OCRRun) (rest : List OCRRun) :
    ∀ x ∈ best :: rest, x.conf ≤ (pyMaxByConf best rest).conf := by
  induction rest generalizing best with
  | nil =>
    intro x hx
    rcases List.mem_singleton.mp hx with rfl
    exact le_rfl
  | cons r rs ih =>
    intro x hx
    by_cases hcmp : best.conf < r.conf
    · have hrec := ih r
      rw [pyMaxByConf, if_pos hcmp]
      rcases List.mem_cons.mp hx with rfl | hx'
      · exact le_of_lt (lt_of_lt_of_le hcmp (hrec r (List.mem_cons_self _ _)))
      · exact hrec x hx'
    · have hrec := ih best
      rw [pyMaxByConf, if_neg hcmp]
      rcases List.mem_cons.mp hx with rfl | hx'
      · exact hrec x (List.mem_cons_self _ _)
      rcases List.mem_cons.mp hx' with rfl | hx''
      · exact le_trans (le_of_not_lt hcmp) (hrec best (List.mem_cons_self _ _))
      · exact hrec x (List.mem_cons_of_mem _ hx'')

/-- `max(results, key=lambda x: x[1])` picks the earliest entry attaining
the maximal confidence: the list splits around the selected entry with every
earlier entry strictly below it. -/
theorem pyMaxByConf_split (best : OCRRun) (rest : List OCRRun) :
    ∃ l₁ l₂, best :: rest = l₁ ++ pyMaxByConf best rest :: l₂ ∧
      ∀ x ∈ l₁, x.conf < (pyMaxByConf best rest).conf := by
  induction rest generalizing best with
  | nil => exact ⟨[], [], rfl, by simp⟩
  | cons r rs ih =>
    by_cases hcmp : best.conf < r.conf
    · obtain ⟨l₁, l₂, heq, hlt⟩ := ih r
      rw [pyMaxByConf, if_pos hcmp]
      refine ⟨best :: l₁, l₂, by rw [List.cons_append, ← heq], ?_⟩
      intro x hx
      rcases List.mem_cons.mp hx with rfl | hx'
      · exact lt_of_lt_of_le hcmp
          (pyMaxByConf_le r rs r (List.mem_cons_self _ _))
      · exact hlt x hx'
    · obtain ⟨l₁, l₂, heq, hlt⟩ := ih best
      rw [pyMaxByConf, if_neg hcmp]
      cases l₁ with
      | nil =>
        rw [List.nil_append] at heq
        obtain ⟨hb, htl⟩ := List.cons.inj heq
        exact ⟨[], r :: rs, by rw [List.nil_append, ← hb], by simp⟩
      | cons a l₁' =>
        rw [List.cons_append] at heq
        obtain ⟨ha, htl⟩ := List.cons.inj heq
        subst ha
        have hlist : best :: r :: rs =
            (best :: r :: l₁') ++ pyMaxByConf best rs :: l₂ := by
          rw [List.cons_append, List.cons_append, ← htl]
        refine ⟨best :: r :: l₁', l₂, hlist, ?_⟩
        intro x hx
        have hbestlt : best.conf < (pyMaxByConf best rs).conf :=
          hlt best (List.mem_cons_self _ _)
        rcases List.mem_cons.mp hx with rfl | hx'
        · exact hbestlt
        rcases List.mem_cons.mp hx' with rfl | hx''
        · exact lt_of_le_of_lt (le_of_not_lt hcmp) hbestlt
        · exact hlt x (List.mem_cons_of_mem _ hx'')

/-- C1: under the `'confidence'` voting strategy, for every image and
non-empty engine list whose `extract_text` calls all succeed, the ensemble
returns the `(text, confidence)` pair of an engine whose confidence is
maximal, and that engine is the earliest one attaining the maximum: every
earlier result has strictly smaller confidence, every engine's confidence
is at most the returned one. -/
theorem ensemble_confidence_picks_max (e : EnsembleOCREngine) (image : Image)
    (language : String)
    (hstrat : e.voting_strategy = "confidence")
    (hne : e.engines ≠ [])
    (hsucc : ∀ en ∈ e.engines, (en.run image language).isSome) :
    ∃ l₁ l₂ r,
      runEngines e.engines image language = l₁ ++ r :: l₂ ∧
      e.extract_text image language = (r.text, r.conf) ∧
      (∀ x ∈ l₁, x.conf < r.conf) ∧
      (∀ en ∈ e.engines, ∀ t c, en.run image language = some (t, c) →
        c ≤ r.conf) := by
  obtain ⟨e₀, es, hes⟩ := List.exists_cons_of_ne_nil hne
  have he₀ : (e₀.run image language).isSome := by
    rw [hes] at hsucc
    exact hsucc e₀ (List.mem_cons_self _ _)
  obtain ⟨tc, htc⟩ := Option.isSome_iff_exists.mp he₀
  obtain ⟨r₀, rs, hrs⟩ :
      ∃ r₀ rs, runEngines e.engines image language = r₀ :: rs := by
    rw [hes]
    refine ⟨⟨tc.1, tc.2, e₀.name⟩, runEngines es image language, ?_⟩
    simp [runEngines, htc]
  obtain ⟨l₁, l₂, hsplit, hlt⟩ := pyMaxByConf_split r₀ rs
  refine ⟨l₁, l₂, pyMaxByConf r₀ rs, by rw [hrs, hsplit], ?_, hlt, ?_⟩
  · rw [EnsembleOCREngine.extract_text, hrs]
    simp [hstrat]
  · intro en hen t c hrun
    have hmem : (⟨t, c, en.name⟩ : OCRRun) ∈ runEngines e.engines image language := by
      rw [runEngines, List.mem_filterMap]
      exact ⟨en, hen, by rw [hrun]; rfl⟩
    rw [hrs] at hmem
    exact pyMaxByConf_le r₀ rs _ hmem

/-- C1 witness: a two-engine ensemble where the second engine has the higher
confidence. -/
theorem ensemble_confidence_picks_max_witness :
    ∃ l₁ l₂ r,
      runEngines [⟨"TesseractEngine", fun _ _ => some ("alpha", 1/2)⟩,
        ⟨"EasyOCREngine", fun _ _ => some ("beta", 3/4)⟩] 0 "eng" =
          l₁ ++ r :: l₂ ∧
      EnsembleOCREngine.extract_text
        ⟨[⟨"TesseractEngine", fun _ _ => some ("alpha", 1/2)⟩,
          ⟨"EasyOCREngine", fun _ _ => some ("beta", 3/4)⟩], "confidence"⟩
        0 "eng" = (r.text, r.conf) ∧
      (∀ x ∈ l₁, x.conf < r.conf) ∧
      (∀ en ∈ ([⟨"TesseractEngine", fun _ _ => some ("alpha", 1/2)⟩,
          ⟨"EasyOCREngine", fun _ _ => some ("beta", 3/4)⟩] : List PyEngine),
        ∀ t c, en.run 0 "eng" = some (t, c) → c ≤ r.conf) :=
  ensemble_confidence_picks_max
    ⟨[⟨"TesseractEngine", fun _ _ => some ("alpha", 1/2)⟩,
      ⟨"EasyOCREngine", fun _ _ => some ("beta", 3/4)⟩], "confidence"⟩
    0 "eng" rfl (by simp)
    (by
      intro en hen
      rcases List.mem_cons.mp hen with rfl | hen'
      · rfl
      rcases List.mem_cons.mp hen' with rfl | hen''
      · rfl
      · exact absurd hen'' (List.not_mem_nil _))

/-- The call trace of the engine loop is the engine names in list order:
each engine's `extract_text` is invoked exactly once, in order. -/
theorem runEnginesTr_trace (engines : List PyEngine) (image : Image)
    (language : String) :
    (runEnginesTr engines image language).2 = engines.map PyEngine.name := by
  induction engines with
  | nil => rfl
  | cons en es ih =>
    cases hrun : en.run image language <;>
      simp [runEnginesTr, hrun, ih]

/-- The results collected alongside the trace are exactly the `results`
list of the plain loop. -/
theorem runEnginesTr_results (engines : List PyEngine) (image : Image)
    (language : String) :
    (runEnginesTr engines image language).1 = runEngines engines image language := by
  induction engines with
  | nil => rfl
  | cons en es ih =>
    cases hrun : en.run image language <;>
      simp [runEnginesTr, runEngines, hrun, ih]

/-- C4: every engine in the list is invoked exactly once, in list order
(the call trace equals the name list); an engine that raises is skipped
while the others still contribute their results; and when every engine
raises, the ensemble returns `("", 0.0)`. -/
theorem ensemble_runs_every_engine (e : EnsembleOCREngine) (image : Image)
    (language : String) :
    (runEnginesTr e.engines image language).2 = e.engines.map PyEngine.name ∧
    (runEnginesTr e.engines image language).1 = runEngines e.engines image language ∧
    ((∀ en ∈ e.engines, en.run image language = none) →
      e.extract_text image language = ("", 0)) := by
  refine ⟨runEnginesTr_trace _ _ _, runEnginesTr_results _ _ _, fun hall => ?_⟩
  have hnil : runEngines e.engines image language = [] := by
    rw [runEngines, List.filterMap_eq_nil_iff]
    intro en hen
    rw [hall en hen]
    rfl
  rw [EnsembleOCREngine.extract_text, hnil]

/-- C4 witness: a concrete instance — an ensemble whose middle engine
raises still produces an entry for the surrounding engines, and an
all-raising ensemble yields `("", 0.0)`. -/
theorem ensemble_runs_every_engine_witness :
    (runEnginesTr [⟨"TesseractEngine", fun _ _ => some ("alpha", 1/2)⟩,
        ⟨"EasyOCREngine", fun _ _ => none⟩] 0 "eng").2 =
      ["TesseractEngine", "EasyOCREngine"] ∧
    (runEnginesTr [⟨"TesseractEngine", fun _ _ => some ("alpha", 1/2)⟩,
        ⟨"EasyOCREngine", fun _ _ => none⟩] 0 "eng").1 =
      runEngines [⟨"TesseractEngine", fun _ _ => some ("alpha", 1/2)⟩,
        ⟨"EasyOCREngine", fun _ _ => none⟩] 0 "eng" ∧
    ((∀ en ∈ ([⟨"TesseractEngine", fun _ _ => some ("alpha", 1/2)⟩,
        ⟨"EasyOCREngine", fun _ _ => none⟩] : List PyEngine),
        en.run 0 "eng" = none) →
      EnsembleOCREngine.extract_text
        ⟨[⟨"TesseractEngine", fun _ _ => some ("alpha", 1/2)⟩,
          ⟨"EasyOCREngine", fun _ _ => none⟩], "confidence"⟩ 0 "eng" = ("", 0)) :=
  ensemble_runs_every_engine
    ⟨[⟨"TesseractEngine", fun _ _ => some ("alpha", 1/2)⟩,
      ⟨"EasyOCREngine", fun _ _ => none⟩], "confidence"⟩ 0 "eng"

/-- C9: under any voting strategy other than `'confidence'` (including the
documented `'majority'`), the ensemble returns the first collected result —
the first successful engine's `(text, confidence)` pair; no vote is taken. -/
theorem ensemble_other_strategy_returns_first (e : EnsembleOCREngine)
    (image : Image) (language : String)
    (hstrat : e.voting_strategy ≠ "confidence") :
    ∀ r rs, runEngines e.engines image language = r :: rs →
      e.extract_text image language = (r.text, r.conf) := by
  intro r rs hrs
  rw [EnsembleOCREngine.extract_text, hrs]
  simp [hstrat]

/-- C9 witness: under `'majority'`, with the first engine raising and the
third holding the highest confidence, the ensemble still returns the second
(first successful) engine's result. -/
theorem ensemble_other_strategy_returns_first_witness :
    EnsembleOCREngine.extract_text
      ⟨[⟨"A", fun _ _ => none⟩, ⟨"B", fun _ _ => some ("beta", 1/4)⟩,
        ⟨"C", fun _ _ => some ("gamma", 3/4)⟩], "majority"⟩ 0 "eng" =
      ("beta", 1/4) :=
  ensemble_other_strategy_returns_first
    ⟨[⟨"A", fun _ _ => none⟩, ⟨"B", fun _ _ => some ("beta", 1/4)⟩,
      ⟨"C", fun _ _ => some ("gamma", 3/4)⟩], "majority"⟩ 0 "eng"
    (by decide) ⟨"beta", 1/4, "B"⟩ [⟨"gamma", 3/4, "C"⟩] rfl

/-- C5: the `measure_and_log` wrapper is transparent — it returns exactly
the wrapped call's result and re-raises exactly its exception — and records
exactly one performance metric per call, carrying the given service name
and the endpoint (the function name when no endpoint was given), with
status code 500 on an exception, 400 on a returned dict whose `'success'`
entry (defaulting to `True`) is falsy, and 200 otherwise. -/
theorem measure_and_log_spec (service : String) (ep : Option String)
    (fn : String) (oc : CallOutcome) :
    (measure_and_log_call service ep fn oc).1 = oc ∧
    ∃ m, (measure_and_log_call service ep fn oc).2 = [m] ∧
      m.service_name = service ∧
      m.endpoint = ep.getD fn ∧
      (∀ s, oc = .exn s → m.status_code = 500) ∧
      (∀ es, oc = .ret (.dict es) →
        ((dictGet es "success" (.bool true)).truthy = false →
          m.status_code = 400) ∧
        ((dictGet es "success" (.bool true)).truthy = true →
          m.status_code = 200)) ∧
      (∀ v, oc = .ret v → (∀ es, v ≠ .dict es) → m.status_code = 200) := by
  cases oc with
  | exn s =>
    refine ⟨rfl, ⟨service, ep.getD fn, 500⟩, rfl, rfl, rfl, ?_, ?_, ?_⟩
    · intro _ _
      rfl
    · intro es h
      exact nomatch h
    · intro v h hnd
      exact nomatch h
  | ret v =>
    cases v with
    | dict es =>
      refine ⟨rfl,
        ⟨service, ep.getD fn,
          if (dictGet es "success" (.bool true)).truthy then 200 else 400⟩,
        rfl, rfl, rfl, ?_, ?_, ?_⟩
      · intro s h
        exact nomatch h
      · intro es' heq
        injection heq with hv
        injection hv with hes
        subst hes
        exact ⟨fun htr => by simp [htr], fun htr => by simp [htr]⟩
      · intro v' heq hnd
        injection heq with hv
        exact absurd hv.symm (hnd es)
    | pyNone =>
      refine ⟨rfl, ⟨service, ep.getD fn, 200⟩, rfl, rfl, rfl, ?_, ?_, ?_⟩
      · intro s h
        exact nomatch h
      · intro es h
        injection h with hv
        exact nomatch hv
      · intro v' h hnd
        rfl
    | bool b =>
      refine ⟨rfl, ⟨service, ep.getD fn, 200⟩, rfl, rfl, rfl, ?_, ?_, ?_⟩
      · intro s h
        exact nomatch h
      · intro es h
        injection h with hv
        exact nomatch hv
      · intro v' h hnd
        rfl
    | int n =>
      refine ⟨rfl, ⟨service, ep.getD fn, 200⟩, rfl, rfl, rfl, ?_, ?_, ?_⟩
      · intro s h
        exact nomatch h
      · intro es h
        injection h with hv
        exact nomatch hv
      · intro v' h hnd
        rfl
    | str s' =>
      refine ⟨rfl, ⟨service, ep.getD fn, 200⟩, rfl, rfl, rfl, ?_, ?_, ?_⟩
      · intro s h
        exact nomatch h
      · intro es h
        injection h with hv
        exact nomatch hv
      · intro v' h hnd
        rfl

/-- A successful `predict_from_text` flags confidence by comparing the
predicted probability against the service's threshold. -/
theorem predict_from_text_confident (svc : InferenceService) (text : String)
    (c : String) (conf : ℚ) (ic : Bool)
    (h : svc.predict_from_text text = .success c conf ic) :
    ic = decide (svc.confidence_threshold ≤ conf) := by
  rw [InferenceService.predict_from_text] at h
  repeat' split at h
  case h_2.h_2.h_2.h_2 =>
    injection h with h1 h2 h3
    subst h2
    exact h3.symm
  all_goals exact nomatch h

/-- C6: `predict_from_document` runs OCR exactly when no stored OCR result
exists; it fails without saving a prediction when OCR fails, when the
extracted text is empty, or when no model is loaded; otherwise it
classifies the source text (the most recent stored OCR text, or the
freshly extracted one), and on success reports the predicted class, its
confidence, whether the confidence meets the service's threshold, and
saves exactly that prediction. -/
theorem predict_from_document_spec (svc : InferenceService) (env : OcrEnv) :
    (svc.predict_from_document env).2.1 = env.stored.isNone ∧
    (sourceText env = none →
      svc.predict_from_document env =
        (.failure "OCR processing failed", true, [])) ∧
    (∀ t, sourceText env = some t → t = "" →
      (svc.predict_from_document env).1 =
        .failure "No text extracted from document" ∧
      (svc.predict_from_document env).2.2 = []) ∧
    (svc.model = none →
      (svc.predict_from_document env).2.2 = [] ∧
      ∀ c conf ic, (svc.predict_from_document env).1 ≠ .success c conf ic) ∧
    (∀ t, sourceText env = some t → t ≠ "" →
      (svc.predict_from_document env).1 = svc.predict_from_text t ∧
      (∀ c conf ic,
        (svc.predict_from_document env).1 = .success c conf ic →
        ic = decide (svc.confidence_threshold ≤ conf) ∧
        (svc.predict_from_document env).2.2 = [⟨c, conf⟩])) := by
  obtain ⟨stored, pres⟩ := env
  have hmain : ∀ t, stored = some t ∨ (stored = none ∧ pres = .ok t) →
      (InferenceService.predict_from_document svc ⟨stored, pres⟩).1 =
          (if t = "" then .failure "No text extracted from document"
            else svc.predict_from_text t) ∧
      (InferenceService.predict_from_document svc ⟨stored, pres⟩).2.2 =
          (if t = "" then []
            else match svc.predict_from_text t with
              | .success c conf _ => [⟨c, conf⟩]
              | .failure _ => []) := by
    intro t ht
    rcases ht with rfl | ⟨rfl, rfl⟩ <;>
    · rw [InferenceService.predict_from_document]
      by_cases hte : t = "" <;>
        simp only [hte, if_pos, if_neg, ite_true, ite_false, reduceIte] <;>
        cases svc.predict_from_text t <;> simp
  cases stored with
  | some t0 =>
    have hran : (InferenceService.predict_from_document svc ⟨some t0, pres⟩).2.1 =
        false := by
      rw [InferenceService.predict_from_document]
      by_cases hte : t0 = "" <;>
        simp only [hte, ite_true, ite_false, reduceIte] <;>
        first
          | rfl
          | (cases svc.predict_from_text t0 <;> rfl)
    refine ⟨by rw [hran]; rfl, ?_, ?_, ?_, ?_⟩
    · intro hsrc
      simp [sourceText] at hsrc
    · intro t hsrc hte
      have heq : t0 = t := by simpa [sourceText] using hsrc
      subst heq
      have := hmain t0 (Or.inl rfl)
      rw [this.1, this.2, if_pos hte, if_pos hte]
      exact ⟨rfl, rfl⟩
    · intro hm
      have := hmain t0 (Or.inl rfl)
      by_cases hte : t0 = ""
      · rw [this.1, this.2, if_pos hte, if_pos hte]
        exact ⟨rfl, fun c conf ic h => nomatch h⟩
      · rw [this.1, this.2, if_neg hte, if_neg hte]
        rw [InferenceService.predict_from_text, hm]
        exact ⟨rfl, fun c conf ic h => nomatch h⟩
    · intro t hsrc hte
      have heq : t0 = t := by simpa [sourceText] using hsrc
      subst heq
      have := hmain t0 (Or.inl rfl)
      rw [this.1, this.2, if_neg hte, if_neg hte]
      refine ⟨rfl, ?_⟩
      intro c conf ic h
      refine ⟨predict_from_text_confident svc t0 c conf ic h, ?_⟩
      rw [h]
  | none =>
    cases pres with
    | ok t0 =>
      have hran : (InferenceService.predict_from_document svc
          ⟨none, .ok t0⟩).2.1 = true := by
        rw [InferenceService.predict_from_document]
        by_cases hte : t0 = "" <;>
          simp only [hte, ite_true, ite_false, reduceIte] <;>
          first
            | rfl
            | (cases svc.predict_from_text t0 <;> rfl)
      refine ⟨by rw [hran]; rfl, ?_, ?_, ?_, ?_⟩
      · intro hsrc
        simp [sourceText] at hsrc
      · intro t hsrc hte
        have heq : t0 = t := by simpa [sourceText] using hsrc
        subst heq
        have := hmain t0 (Or.inr ⟨rfl, rfl⟩)
        rw [this.1, this.2, if_pos hte, if_pos hte]
        exact ⟨rfl, rfl⟩
      · intro hm
        have := hmain t0 (Or.inr ⟨rfl, rfl⟩)
        by_cases hte : t0 = ""
        · rw [this.1, this.2, if_pos hte, if_pos hte]
          exact ⟨rfl, fun c conf ic h => nomatch h⟩
        · rw [this.1, this.2, if_neg hte, if_neg hte]
          rw [InferenceService.predict_from_text, hm]
          exact ⟨rfl, fun c conf ic h => nomatch h⟩
      · intro t hsrc hte
        have heq : t0 = t := by simpa [sourceText] using hsrc
        subst heq
        have := hmain t0 (Or.inr ⟨rfl, rfl⟩)
        rw [this.1, this.2, if_neg hte, if_neg hte]
        refine ⟨rfl, ?_⟩
        intro c conf ic h
        refine ⟨predict_from_text_confident svc t0 c conf ic h, ?_⟩
        rw [h]
    | failed =>
      refine ⟨rfl, ?_, ?_, ?_, ?_⟩
      · intro _
        rfl
      · intro t hsrc
        simp [sourceText] at hsrc
      · intro hm
        exact ⟨rfl, fun c conf ic h => nomatch h⟩
      · intro t hsrc
        simp [sourceText] at hsrc

/-- C8: `validate_file` accepts — returns `(True, None)` — exactly when the
lowercased `Path(filename).suffix` is an allowed extension and the size is
at most 52428800 bytes (50 MB); any rejection carries an error message, and
a rejected file is turned away by `ingest_document` before any storage or
database effect happens. -/
theorem validate_file_spec (filename : String) (file_size : Nat) :
    (validate_file filename file_size = (true, none) ↔
      (pyLower (pathLastExt filename) ∈ ALLOWED_EXTENSIONS ∧
        file_size ≤ 52428800)) ∧
    ((validate_file filename file_size).1 = false →
      ∃ msg, validate_file filename file_size = (false, some msg)) ∧
    ((validate_file filename file_size).1 = false →
      ∀ env storage_path, ∃ msg,
        ingest_document env filename file_size storage_path =
          (.err msg, [])) := by
  by_cases hext : pyLower (pathLastExt filename) ∈ ALLOWED_EXTENSIONS
  · by_cases hsize : file_size > MAX_FILE_SIZE
    · have hv : validate_file filename file_size =
          (false, some "Файл слишком большой") := by
        rw [validate_file, if_neg (by simpa using hext), if_pos hsize]
      refine ⟨?_, fun _ => ⟨_, hv⟩, fun _ env sp => ?_⟩
      · rw [hv]
        simp only [MAX_FILE_SIZE] at hsize
        constructor
        · intro h
          exact nomatch h
        · intro ⟨_, hle⟩
          omega
      · exact ⟨_, by rw [ingest_document, hv]⟩
    · have hv : validate_file filename file_size = (true, none) := by
        rw [validate_file, if_neg (by simpa using hext), if_neg hsize]
      refine ⟨?_, fun hfalse => ?_, fun hfalse => ?_⟩
      · simp only [MAX_FILE_SIZE] at hsize
        exact ⟨fun _ => ⟨hext, by omega⟩, fun _ => hv⟩
      · rw [hv] at hfalse
        exact nomatch hfalse
      · rw [hv] at hfalse
        exact nomatch hfalse
  · have hv : validate_file filename file_size =
        (false, some "Недопустимое расширение файла") := by
      rw [validate_file, if_pos (by simpa using hext)]
    refine ⟨?_, fun _ => ⟨_, hv⟩, fun _ env sp => ?_⟩
    · rw [hv]
      constructor
      · intro h
        exact nomatch h
      · intro ⟨hmem, _⟩
        exact absurd hmem hext
    · exact ⟨_, by rw [ingest_document, hv]⟩

/-- C10: when the file validates, the storage upload succeeds and the
database save raises, `ingest_document` deletes the just-uploaded object
and returns an unsuccessful result: the effect trace is exactly the upload
followed by its deletion — no database commit, no orphan object. -/
theorem ingest_deletes_upload_on_db_failure (env : IngestEnv)
    (filename : String) (file_size : Nat) (storage_path : String)
    (hval : validate_file filename file_size = (true, none))
    (hup : env.uploadSucceeds = true)
    (hdb : env.dbSaveRaises = true) :
    ingest_document env filename file_size storage_path =
      (.err "Ошибка сохранения в БД",
        [.upload storage_path, .deleteObj storage_path]) := by
  rw [ingest_document, hval]
  simp [hup, hdb]

/-- C10 witness: a valid PDF upload whose database save raises. -/
theorem ingest_deletes_upload_on_db_failure_witness :
    validate_file "scan.pdf" 1000 = (true, none) ∧
    ingest_document ⟨true, true, 7⟩ "scan.pdf" 1000 "raw/x.pdf" =
      (.err "Ошибка сохранения в БД",
        [.upload "raw/x.pdf", .deleteObj "raw/x.pdf"]) :=
  ⟨by decide,
    ingest_deletes_upload_on_db_failure ⟨true, true, 7⟩ "scan.pdf" 1000
      "raw/x.pdf" (by decide) rfl rfl⟩

end DocPipeline
